import Mathlib

/-!
Verification development for the SoftlySoundsMatter sonification core.

The C++ sources are shallowly embedded:
* machine `float`/`double` arithmetic is modelled by exact rationals (`ℚ`);
  transcendental library calls (`sin`, `powf`, `sqrtf`) are threaded through
  as explicit function parameters, since only algebraic facts about them
  (for example `|sin x| ≤ 1`) are ever used by the properties;
* C `int` is modelled by `ℤ` (sizes that are known nonnegative by `ℕ`),
  `uint64_t` timestamps by `ℕ` with explicit wrap-around subtraction;
* stateful classes become structures, member functions become state
  transformers.
-/

set_option autoImplicit false

/-! ### C numeric primitives -/

/-- Truncating cast `(int)q` of C/C++: rounds toward zero. -/
def cTrunc (q : ℚ) : ℤ := if 0 ≤ q then ⌊q⌋ else -⌊-q⌋

/-- The C library `round`: rounds half away from zero. -/
def cRound (q : ℚ) : ℤ := if 0 ≤ q then ⌊q + 1/2⌋ else -⌊-q + 1/2⌋

/-- Exact model of `std::clamp(v, lo, hi)` (also `ofClamp` on floats). -/
def stdClamp (v lo hi : ℚ) : ℚ := if v < lo then lo else if hi < v then hi else v

/-- Exact model of openFrameworks `ofMap(value, inMin, inMax, outMin, outMax, clamp := true)`
restricted to `inMin ≠ inMax` (the guard `fabs(inMin-inMax) < eps` is never hit by
the calls in this repository, whose input ranges are the fixed constants
`130.8128` and `2093.0045`). -/
def ofMapClamped (value inMin inMax outMin outMax : ℚ) : ℚ :=
  let outVal := (value - inMin) / (inMax - inMin) * (outMax - outMin) + outMin
  if outMax < outMin then
    (if outVal < outMax then outMax else if outVal > outMin then outMin else outVal)
  else
    (if outVal > outMax then outMax else if outVal < outMin then outMin else outVal)

/-! ### AnalogKnob (`src/AnalogKnob.h`) -/

/-- State of `class AnalogKnob`: one MCP3008 channel with a linear/stepped mapping. -/
structure AnalogKnob where
  channel : ℤ := 0
  readPeriodMs : ℕ := 200
  lastReadMs : ℕ := 0
  lastRaw : ℤ := -1
  hasMapping : Bool := false
  minValue : ℚ := 0
  stepValue : ℚ := 0
  maxValue : ℚ := 1
  defaultMappedValue : ℚ := 0

namespace AnalogKnob

/-- Embedding of `AnalogKnob::getValue`. -/
def getValue (k : AnalogKnob) : ℚ :=
  if k.hasMapping = false ∨ k.lastRaw < 0 then k.defaultMappedValue
  else
    let t := stdClamp ((k.lastRaw : ℚ) / 1023) 0 1
    let v := k.minValue + t * (k.maxValue - k.minValue)
    let v2 := if k.stepValue > 0
      then k.minValue + (cRound ((v - k.minValue) / k.stepValue) : ℚ) * k.stepValue
      else v
    stdClamp v2 k.minValue k.maxValue

end AnalogKnob

/-! ### Basic lemmas about the numeric primitives -/

theorem cRound_mono {a b : ℚ} (h : a ≤ b) : cRound a ≤ cRound b := by
  unfold cRound
  by_cases ha : 0 ≤ a
  · have hb : 0 ≤ b := le_trans ha h
    simp only [ha, hb, if_true]
    exact Int.floor_le_floor (by linarith)
  · by_cases hb : 0 ≤ b
    · simp only [ha, hb, if_true, if_false]
      have h1 : (0:ℤ) ≤ ⌊b + 1/2⌋ := Int.floor_nonneg.mpr (by linarith)
      have h2 : (0:ℤ) ≤ ⌊-a + 1/2⌋ := Int.floor_nonneg.mpr (by push_neg at ha; linarith)
      omega
    · simp only [ha, hb, if_false]
      have : ⌊-b + 1/2⌋ ≤ ⌊-a + 1/2⌋ := Int.floor_le_floor (by linarith)
      omega

theorem stdClamp_mono {v w lo hi : ℚ} (hlohi : lo ≤ hi) (h : v ≤ w) :
    stdClamp v lo hi ≤ stdClamp w lo hi := by
  unfold stdClamp
  split_ifs <;> linarith

theorem stdClamp_le {v lo hi : ℚ} (h : lo ≤ hi) : stdClamp v lo hi ≤ hi := by
  unfold stdClamp; split_ifs <;> linarith

theorem le_stdClamp {v lo hi : ℚ} (h : lo ≤ hi) : lo ≤ stdClamp v lo hi := by
  unfold stdClamp; split_ifs <;> linarith

/-- C8: for a configured knob mapping with `min < max`, the mapped value
`AnalogKnob::getValue` is non-decreasing in the raw sample over `[0, 1023]` and
always lies within `[min, max]`; for `raw = -1` (never read / error) or when no
mapping is configured it equals the configured default value. -/
theorem C8_knob_mapping (k : AnalogKnob) (hm : k.hasMapping = true)
    (hlt : k.minValue < k.maxValue) :
    (∀ r1 r2 : ℤ, 0 ≤ r1 → r1 ≤ r2 → r2 ≤ 1023 →
      AnalogKnob.getValue {k with lastRaw := r1} ≤ AnalogKnob.getValue {k with lastRaw := r2}) ∧
    (∀ r : ℤ, 0 ≤ r → r ≤ 1023 →
      k.minValue ≤ AnalogKnob.getValue {k with lastRaw := r} ∧
      AnalogKnob.getValue {k with lastRaw := r} ≤ k.maxValue) ∧
    AnalogKnob.getValue {k with lastRaw := -1} = k.defaultMappedValue ∧
    (∀ k2 : AnalogKnob, k2.hasMapping = false → k2.getValue = k2.defaultMappedValue) := by
  have hle : k.minValue ≤ k.maxValue := le_of_lt hlt
  refine ⟨?_, ?_, ?_, ?_⟩
  · intro r1 r2 h0 h12 h2
    have h0b : (0:ℤ) ≤ r2 := le_trans h0 h12
    simp only [AnalogKnob.getValue, hm, Bool.true_eq_false, false_or,
      if_neg (not_lt.mpr h0), if_neg (not_lt.mpr h0b)]
    have ht : stdClamp ((r1 : ℚ) / 1023) 0 1 ≤ stdClamp ((r2 : ℚ) / 1023) 0 1 := by
      refine stdClamp_mono (by norm_num) ?_
      have : (r1 : ℚ) ≤ (r2 : ℚ) := by exact_mod_cast h12
      linarith
    have hv : k.minValue + stdClamp ((r1 : ℚ) / 1023) 0 1 * (k.maxValue - k.minValue) ≤
        k.minValue + stdClamp ((r2 : ℚ) / 1023) 0 1 * (k.maxValue - k.minValue) := by
      have := mul_le_mul_of_nonneg_right ht (by linarith : (0:ℚ) ≤ k.maxValue - k.minValue)
      linarith
    by_cases hs : k.stepValue > 0
    · simp only [hs, if_true]
      refine stdClamp_mono hle ?_
      have hq := cRound_mono (div_le_div_of_nonneg_right (sub_le_sub_right hv k.minValue) hs.le)
      have : (cRound ((k.minValue + stdClamp ((r1 : ℚ) / 1023) 0 1 * (k.maxValue - k.minValue)
          - k.minValue) / k.stepValue) : ℚ) ≤
          (cRound ((k.minValue + stdClamp ((r2 : ℚ) / 1023) 0 1 * (k.maxValue - k.minValue)
          - k.minValue) / k.stepValue) : ℚ) := by exact_mod_cast hq
      have := mul_le_mul_of_nonneg_right this (le_of_lt hs)
      linarith
    · simp only [hs, if_false]
      exact stdClamp_mono hle hv
  · intro r h0 h1023
    simp only [AnalogKnob.getValue, hm, Bool.true_eq_false, false_or, if_neg (not_lt.mpr h0)]
    by_cases hs : k.stepValue > 0 <;>
      simp only [hs, if_true, if_false] <;>
      exact ⟨le_stdClamp hle, stdClamp_le hle⟩
  · simp [AnalogKnob.getValue]
  · intro k2 h2
    simp [AnalogKnob.getValue, h2]

/-- Concrete knob used to witness `C8_knob_mapping`: the mapping of Scenario B
(`min = 0.2`, `step = 0.01`, `max = 3.0`, default `1`). -/
def scenarioBKnob : AnalogKnob :=
  { lastRaw := 0, hasMapping := true, minValue := 1/5, stepValue := 1/100,
    maxValue := 3, defaultMappedValue := 1 }

/-- Witness for C8 at the Scenario B knob: monotone between raws 300 and 600,
range containment at raw 512, and the default at raw -1. -/
theorem C8_knob_mapping_witness :
    AnalogKnob.getValue {scenarioBKnob with lastRaw := 300} ≤
      AnalogKnob.getValue {scenarioBKnob with lastRaw := 600} ∧
    (scenarioBKnob.minValue ≤ AnalogKnob.getValue {scenarioBKnob with lastRaw := 512} ∧
      AnalogKnob.getValue {scenarioBKnob with lastRaw := 512} ≤ scenarioBKnob.maxValue) ∧
    AnalogKnob.getValue {scenarioBKnob with lastRaw := -1} =
      scenarioBKnob.defaultMappedValue := by
  have h := C8_knob_mapping scenarioBKnob rfl (by norm_num [scenarioBKnob])
  exact ⟨h.1 300 600 (by decide) (by decide) (by decide),
    h.2.1 512 (by decide) (by decide), h.2.2.1⟩

/-! ### Buttons (`src/AnalogButton.cpp`, `src/GpioButton.cpp`) -/

/-- Wrap-around subtraction of two `uint64_t` timestamps, as computed by
`nowMs - lastReadMs` in C++. -/
def u64sub (a b : ℕ) : ℕ := (2 ^ 64 + a % 2 ^ 64 - b % 2 ^ 64) % 2 ^ 64

theorem u64sub_eq {a b : ℕ} (hba : b ≤ a) (ha : a < 2 ^ 64) : u64sub a b = a - b := by
  unfold u64sub; omega

/-- State of `class AnalogButton`. The field `adcOpen` models
`adc && adc->isOpen()`; the raw ADC sample itself is an input of `update`. -/
structure AnalogButton where
  channel : ℤ := 0
  adcOpen : Bool := true
  readPeriodMs : ℕ := 20
  lastReadMs : ℕ := 0
  lastRaw : ℤ := -1
  pressRaw : ℤ := 700
  releaseRaw : ℤ := 600
  debounceMs : ℕ := 30
  pressed : Bool := false
  candidatePressed : Bool := false
  candidateSinceMs : ℕ := 0
  pressedEdge : Bool := false
  releasedEdge : Bool := false

namespace AnalogButton

/-- Embedding of `AnalogButton::update(nowMs)`; `raw` is the value returned by
`adc->readChannelRaw(channel)` at this poll. -/
def update (s : AnalogButton) (nowMs : ℕ) (raw : ℤ) : AnalogButton :=
  if s.adcOpen = false then s
  else if 0 < s.readPeriodMs ∧ u64sub nowMs s.lastReadMs < s.readPeriodMs then s
  else
    let s1 := {s with lastReadMs := nowMs, lastRaw := raw}
    if raw < 0 then s1
    else
      let desired : Bool :=
        if s1.pressed = false ∧ s1.pressRaw ≤ raw then true
        else if s1.pressed = true ∧ raw ≤ s1.releaseRaw then false
        else s1.pressed
      if desired ≠ s1.candidatePressed then
        {s1 with candidatePressed := desired, candidateSinceMs := nowMs}
      else if s1.pressed ≠ s1.candidatePressed then
        (if s1.debounceMs = 0 ∨ s1.debounceMs ≤ u64sub nowMs s1.candidateSinceMs then
          (if s1.candidatePressed then
            {s1 with pressed := s1.candidatePressed, pressedEdge := true}
          else
            {s1 with pressed := s1.candidatePressed, releasedEdge := true})
        else s1)
      else s1

/-- Fold `update` over a list of `(time, raw sample)` polls. -/
def runPolls (s : AnalogButton) (polls : List (ℕ × ℤ)) : AnalogButton :=
  polls.foldl (fun st p => st.update p.1 p.2) s

end AnalogButton

/-- State of `class GpioButton`. The field `hasRequest` models
`request != nullptr`; the GPIO level is an input of `update`. -/
structure GpioButton where
  hasRequest : Bool := true
  lineOffset : ℤ := 0
  readPeriodMs : ℕ := 10
  lastReadMs : ℕ := 0
  debounceMs : ℕ := 30
  pressed : Bool := false
  candidatePressed : Bool := false
  candidateSinceMs : ℕ := 0
  pressedEdge : Bool := false
  releasedEdge : Bool := false

namespace GpioButton

/-- Embedding of `GpioButton::update(nowMs)`; `v` is the value returned by
`gpiod_line_request_get_value` at this poll (negative on error). -/
def update (s : GpioButton) (nowMs : ℕ) (v : ℤ) : GpioButton :=
  if s.hasRequest = false ∨ s.lineOffset < 0 then s
  else if 0 < s.readPeriodMs ∧ u64sub nowMs s.lastReadMs < s.readPeriodMs then s
  else
    let s1 := {s with lastReadMs := nowMs}
    if v < 0 then s1
    else
      let desired : Bool := decide (v ≠ 0)
      if desired ≠ s1.candidatePressed then
        {s1 with candidatePressed := desired, candidateSinceMs := nowMs}
      else if s1.pressed ≠ s1.candidatePressed then
        (if s1.debounceMs = 0 ∨ s1.debounceMs ≤ u64sub nowMs s1.candidateSinceMs then
          (if s1.candidatePressed then
            {s1 with pressed := s1.candidatePressed, pressedEdge := true}
          else
            {s1 with pressed := s1.candidatePressed, releasedEdge := true})
        else s1)
      else s1

/-- Fold `update` over a list of `(time, level)` polls. -/
def runPolls (s : GpioButton) (polls : List (ℕ × ℤ)) : GpioButton :=
  polls.foldl (fun st p => st.update p.1 p.2) s

end GpioButton

/-- C7 counterexample: the claim says an error poll leaves the last-known raw
value reported by `getRaw()` unchanged, but `AnalogButton::update` stores the
sentinel into `lastRaw` before the `raw < 0` early return: a button whose last
raw value was 500 reports -1 after an error poll. -/
theorem C7_counterexample :
    (AnalogButton.update {lastRaw := 500} 100 (-1)).lastRaw = -1 ∧
    ({lastRaw := 500} : AnalogButton).lastRaw = 500 := by decide

/-- C7 amended: a poll whose raw read returns the error sentinel (value < 0)
commits nothing to the debounce state of either button: the committed pressed
state, candidate state, candidate timestamp and both edge flags keep their
values. However (the correction) `AnalogButton::update` does overwrite the
last-known raw value with the sentinel when the poll passes the rate gate, and
both buttons advance their internal `lastReadMs` clock. -/
theorem C7_error_poll_ignored (s : AnalogButton) (g : GpioButton)
    (nowA nowG : ℕ) (raw v : ℤ) (hraw : raw < 0) (hv : v < 0) :
    (s.update nowA raw).pressed = s.pressed ∧
    (s.update nowA raw).candidatePressed = s.candidatePressed ∧
    (s.update nowA raw).candidateSinceMs = s.candidateSinceMs ∧
    (s.update nowA raw).pressedEdge = s.pressedEdge ∧
    (s.update nowA raw).releasedEdge = s.releasedEdge ∧
    ((s.update nowA raw).lastRaw = s.lastRaw ∨ (s.update nowA raw).lastRaw = raw) ∧
    (g.update nowG v).pressed = g.pressed ∧
    (g.update nowG v).candidatePressed = g.candidatePressed ∧
    (g.update nowG v).candidateSinceMs = g.candidateSinceMs ∧
    (g.update nowG v).pressedEdge = g.pressedEdge ∧
    (g.update nowG v).releasedEdge = g.releasedEdge := by
  unfold AnalogButton.update GpioButton.update
  split_ifs <;> simp_all

/-- Witness for C7 at a concrete error poll. -/
theorem C7_error_poll_ignored_witness :
    (AnalogButton.update {lastRaw := 500} 100 (-1)).pressed =
      ({lastRaw := 500} : AnalogButton).pressed ∧
    (AnalogButton.update {lastRaw := 500} 100 (-1)).candidatePressed =
      ({lastRaw := 500} : AnalogButton).candidatePressed ∧
    (AnalogButton.update {lastRaw := 500} 100 (-1)).candidateSinceMs =
      ({lastRaw := 500} : AnalogButton).candidateSinceMs ∧
    (AnalogButton.update {lastRaw := 500} 100 (-1)).pressedEdge =
      ({lastRaw := 500} : AnalogButton).pressedEdge ∧
    (AnalogButton.update {lastRaw := 500} 100 (-1)).releasedEdge =
      ({lastRaw := 500} : AnalogButton).releasedEdge ∧
    ((AnalogButton.update {lastRaw := 500} 100 (-1)).lastRaw =
        ({lastRaw := 500} : AnalogButton).lastRaw ∨
      (AnalogButton.update {lastRaw := 500} 100 (-1)).lastRaw = -1) ∧
    (GpioButton.update {} 100 (-1)).pressed = ({} : GpioButton).pressed ∧
    (GpioButton.update {} 100 (-1)).candidatePressed = ({} : GpioButton).candidatePressed ∧
    (GpioButton.update {} 100 (-1)).candidateSinceMs = ({} : GpioButton).candidateSinceMs ∧
    (GpioButton.update {} 100 (-1)).pressedEdge = ({} : GpioButton).pressedEdge ∧
    (GpioButton.update {} 100 (-1)).releasedEdge = ({} : GpioButton).releasedEdge :=
  C7_error_poll_ignored {lastRaw := 500} {} 100 100 (-1) (-1) (by decide) (by decide)

/-! ### Debounce run lemmas for C6 -/

theorem analogButton_update_stable (s : AnalogButton) (t : ℕ) (r : ℤ)
    (hp : s.pressed = true) (hc : s.candidatePressed = true)
    (hr0 : 0 ≤ r) (hrr : s.releaseRaw < r) :
    ∃ a b, s.update t r = {s with lastReadMs := a, lastRaw := b} := by
  by_cases h1 : s.adcOpen = false
  · exact ⟨s.lastReadMs, s.lastRaw,
      by rw [AnalogButton.update, if_pos h1]⟩
  by_cases h2 : 0 < s.readPeriodMs ∧ u64sub t s.lastReadMs < s.readPeriodMs
  · exact ⟨s.lastReadMs, s.lastRaw,
      by rw [AnalogButton.update, if_neg h1, if_pos h2]⟩
  · refine ⟨t, r, ?_⟩
    rw [AnalogButton.update, if_neg h1, if_neg h2]
    simp [hp, hc, not_le.mpr hrr, not_lt.mpr hr0]

theorem gpioButton_update_stable (g : GpioButton) (t : ℕ) (v : ℤ)
    (hp : g.pressed = true) (hc : g.candidatePressed = true) (hv : 0 < v) :
    ∃ a, g.update t v = {g with lastReadMs := a} := by
  by_cases h1 : g.hasRequest = false ∨ g.lineOffset < 0
  · exact ⟨g.lastReadMs, by rw [GpioButton.update, if_pos h1]⟩
  by_cases h2 : 0 < g.readPeriodMs ∧ u64sub t g.lastReadMs < g.readPeriodMs
  · exact ⟨g.lastReadMs, by rw [GpioButton.update, if_neg h1, if_pos h2]⟩
  · refine ⟨t, ?_⟩
    rw [GpioButton.update, if_neg h1, if_neg h2]
    have hv0 : v ≠ 0 := by omega
    simp [hp, hc, hv0, not_lt.mpr (le_of_lt hv)]

theorem analogButton_runPolls_stable (ts : List ℕ) (s : AnalogButton) (r : ℤ)
    (hp : s.pressed = true) (hc : s.candidatePressed = true)
    (hr0 : 0 ≤ r) (hrr : s.releaseRaw < r) :
    (AnalogButton.runPolls s (ts.map (fun t => (t, r)))).pressed = true ∧
    (AnalogButton.runPolls s (ts.map (fun t => (t, r)))).pressedEdge = s.pressedEdge ∧
    (AnalogButton.runPolls s (ts.map (fun t => (t, r)))).releasedEdge = s.releasedEdge := by
  induction ts generalizing s with
  | nil => exact ⟨hp, rfl, rfl⟩
  | cons t ts ih =>
    obtain ⟨a, b, hab⟩ := analogButton_update_stable s t r hp hc hr0 hrr
    simp only [List.map_cons, AnalogButton.runPolls, List.foldl_cons]
    show (AnalogButton.runPolls (s.update t r) (ts.map (fun t => (t, r)))).pressed = true ∧ _
    rw [hab]
    exact ih {s with lastReadMs := a, lastRaw := b} hp hc hrr

theorem gpioButton_runPolls_stable (ts : List ℕ) (g : GpioButton) (v : ℤ)
    (hp : g.pressed = true) (hc : g.candidatePressed = true) (hv : 0 < v) :
    (GpioButton.runPolls g (ts.map (fun t => (t, v)))).pressed = true ∧
    (GpioButton.runPolls g (ts.map (fun t => (t, v)))).pressedEdge = g.pressedEdge ∧
    (GpioButton.runPolls g (ts.map (fun t => (t, v)))).releasedEdge = g.releasedEdge := by
  induction ts generalizing g with
  | nil => exact ⟨hp, rfl, rfl⟩
  | cons t ts ih =>
    obtain ⟨a, hab⟩ := gpioButton_update_stable g t v hp hc hv
    simp only [List.map_cons, GpioButton.runPolls, List.foldl_cons]
    show (GpioButton.runPolls (g.update t v) (ts.map (fun t => (t, v)))).pressed = true ∧ _
    rw [hab]
    exact ih {g with lastReadMs := a} hp hc

theorem analogButton_runPolls_cons (s : AnalogButton) (p : ℕ × ℤ) (l : List (ℕ × ℤ)) :
    AnalogButton.runPolls s (p :: l) = AnalogButton.runPolls (s.update p.1 p.2) l := rfl

theorem gpioButton_runPolls_cons (g : GpioButton) (p : ℕ × ℤ) (l : List (ℕ × ℤ)) :
    GpioButton.runPolls g (p :: l) = GpioButton.runPolls (g.update p.1 p.2) l := rfl

theorem analogButton_runPolls_pending (ts : List ℕ) (s : AnalogButton) (r : ℤ) (t0 : ℕ)
    (hopen : s.adcOpen = true)
    (hp : s.pressed = false) (hc : s.candidatePressed = true) (hpe : s.pressedEdge = false)
    (hcs : s.candidateSinceMs = t0)
    (hr0 : 0 ≤ r) (hrp : s.pressRaw ≤ r) (hrr : s.releaseRaw < r)
    (hchain : List.Chain (fun a b => a + s.readPeriodMs ≤ b) s.lastReadMs ts)
    (hbound : ∀ u ∈ ts, u < 2 ^ 64)
    (ht0 : t0 ≤ s.lastReadMs) :
    ((AnalogButton.runPolls s (ts.map (fun u => (u, r)))).pressed = true ↔
      ∃ u ∈ ts, t0 + s.debounceMs ≤ u) ∧
    (AnalogButton.runPolls s (ts.map (fun u => (u, r)))).pressedEdge =
      (AnalogButton.runPolls s (ts.map (fun u => (u, r)))).pressed ∧
    (AnalogButton.runPolls s (ts.map (fun u => (u, r)))).releasedEdge = s.releasedEdge := by
  induction ts generalizing s with
  | nil => simp [AnalogButton.runPolls, hp, hpe]
  | cons t ts ih =>
    rw [List.chain_cons] at hchain
    obtain ⟨hgap, hchain2⟩ := hchain
    have htlt : t < 2 ^ 64 := hbound t (List.mem_cons_self t ts)
    have hrel : t0 ≤ t := by omega
    have hproc : ¬(0 < s.readPeriodMs ∧ u64sub t s.lastReadMs < s.readPeriodMs) := by
      rw [u64sub_eq (by omega) htlt]; omega
    have hopen2 : ¬(s.adcOpen = false) := by simp [hopen]
    have hdcond : (s.debounceMs = 0 ∨ s.debounceMs ≤ u64sub t t0) ↔ t0 + s.debounceMs ≤ t := by
      rw [u64sub_eq hrel htlt]; omega
    have hupd : s.update t r = if t0 + s.debounceMs ≤ t
        then {s with lastReadMs := t, lastRaw := r, pressed := true, pressedEdge := true}
        else {s with lastReadMs := t, lastRaw := r} := by
      rw [AnalogButton.update, if_neg hopen2, if_neg hproc]
      simp [hp, hc, hcs, not_lt.mpr hr0, hrp, hdcond]
    by_cases hcommit : t0 + s.debounceMs ≤ t
    · rw [List.map_cons, analogButton_runPolls_cons]
      simp only at hupd ⊢
      rw [hupd, if_pos hcommit]
      obtain ⟨hP, hPE, hRE⟩ := analogButton_runPolls_stable ts
        {s with lastReadMs := t, lastRaw := r, pressed := true, pressedEdge := true} r
        rfl hc hr0 hrr
      refine ⟨?_, ?_, ?_⟩
      · rw [hP]
        exact iff_of_true rfl ⟨t, List.mem_cons_self t ts, hcommit⟩
      · rw [hPE, hP]
      · exact hRE
    · rw [List.map_cons, analogButton_runPolls_cons]
      simp only at hupd ⊢
      rw [hupd, if_neg hcommit]
      have hih := ih {s with lastReadMs := t, lastRaw := r}
        hopen hp hc hpe hcs hrp hrr hchain2
        (fun u hu => hbound u (List.mem_cons_of_mem t hu)) hrel
      refine ⟨?_, hih.2.1, hih.2.2⟩
      rw [hih.1]
      constructor
      · rintro ⟨u, hu, hle⟩
        exact ⟨u, List.mem_cons_of_mem t hu, hle⟩
      · rintro ⟨u, hu, hle⟩
        rcases List.mem_cons.mp hu with rfl | hu2
        · exact absurd hle hcommit
        · exact ⟨u, hu2, hle⟩

theorem gpioButton_runPolls_pending (ts : List ℕ) (g : GpioButton) (v : ℤ) (t0 : ℕ)
    (hreq : g.hasRequest = true) (hoff : 0 ≤ g.lineOffset)
    (hp : g.pressed = false) (hc : g.candidatePressed = true) (hpe : g.pressedEdge = false)
    (hcs : g.candidateSinceMs = t0)
    (hv : 0 < v)
    (hchain : List.Chain (fun a b => a + g.readPeriodMs ≤ b) g.lastReadMs ts)
    (hbound : ∀ u ∈ ts, u < 2 ^ 64)
    (ht0 : t0 ≤ g.lastReadMs) :
    ((GpioButton.runPolls g (ts.map (fun u => (u, v)))).pressed = true ↔
      ∃ u ∈ ts, t0 + g.debounceMs ≤ u) ∧
    (GpioButton.runPolls g (ts.map (fun u => (u, v)))).pressedEdge =
      (GpioButton.runPolls g (ts.map (fun u => (u, v)))).pressed ∧
    (GpioButton.runPolls g (ts.map (fun u => (u, v)))).releasedEdge = g.releasedEdge := by
  induction ts generalizing g with
  | nil => simp [GpioButton.runPolls, hp, hpe]
  | cons t ts ih =>
    rw [List.chain_cons] at hchain
    obtain ⟨hgap, hchain2⟩ := hchain
    have htlt : t < 2 ^ 64 := hbound t (List.mem_cons_self t ts)
    have hrel : t0 ≤ t := by omega
    have hproc : ¬(0 < g.readPeriodMs ∧ u64sub t g.lastReadMs < g.readPeriodMs) := by
      rw [u64sub_eq (by omega) htlt]; omega
    have hguard : ¬(g.hasRequest = false ∨ g.lineOffset < 0) := by
      simp [hreq]; omega
    have hdcond : (g.debounceMs = 0 ∨ g.debounceMs ≤ u64sub t t0) ↔ t0 + g.debounceMs ≤ t := by
      rw [u64sub_eq hrel htlt]; omega
    have hv0 : v ≠ 0 := by omega
    have hupd : g.update t v = if t0 + g.debounceMs ≤ t
        then {g with lastReadMs := t, pressed := true, pressedEdge := true}
        else {g with lastReadMs := t} := by
      rw [GpioButton.update, if_neg hguard, if_neg hproc]
      simp [hp, hc, hcs, not_lt.mpr (le_of_lt hv), hv0, hdcond]
    by_cases hcommit : t0 + g.debounceMs ≤ t
    · rw [List.map_cons, gpioButton_runPolls_cons]
      simp only at hupd ⊢
      rw [hupd, if_pos hcommit]
      obtain ⟨hP, hPE, hRE⟩ := gpioButton_runPolls_stable ts
        {g with lastReadMs := t, pressed := true, pressedEdge := true} v
        rfl hc hv
      refine ⟨?_, ?_, ?_⟩
      · rw [hP]
        exact iff_of_true rfl ⟨t, List.mem_cons_self t ts, hcommit⟩
      · rw [hPE, hP]
      · exact hRE
    · rw [List.map_cons, gpioButton_runPolls_cons]
      simp only at hupd ⊢
      rw [hupd, if_neg hcommit]
      have hih := ih {g with lastReadMs := t}
        hreq hoff hp hc hpe hcs hchain2
        (fun u hu => hbound u (List.mem_cons_of_mem t hu)) hrel
      refine ⟨?_, hih.2.1, hih.2.2⟩
      rw [hih.1]
      constructor
      · rintro ⟨u, hu, hle⟩
        exact ⟨u, List.mem_cons_of_mem t hu, hle⟩
      · rintro ⟨u, hu, hle⟩
        rcases List.mem_cons.mp hu with rfl | hu2
        · exact absurd hle hcommit
        · exact ⟨u, hu2, hle⟩

/-- C6 counterexample: with `debounceMs = 30`, `readPeriodMs = 10`, a raw level
that flips at t = 0 and polls at 10, 20, 30, 40 ms (the scenario of the claim),
the committed state has NOT changed after the poll at 30 ms even though
`now - t = 30 - 0 ≥ debounceMs` there, contradicting the claim that the commit
happens at the first poll with `now - t ≥ debounceDuration`; the code instead
commits at 40 ms, measuring stability from the first poll that observed the
flip (10 ms). -/
theorem C6_counterexample :
    (GpioButton.runPolls {} [(10, 1), (20, 1), (30, 1)]).pressed = false ∧
    ({} : GpioButton).debounceMs ≤ 30 - 0 ∧
    (GpioButton.runPolls {} [(10, 1), (20, 1), (30, 1)]).pressedEdge = false ∧
    (GpioButton.runPolls {} [(10, 1), (20, 1), (30, 1), (40, 1)]).pressed = true ∧
    (GpioButton.runPolls {} [(10, 1), (20, 1), (30, 1), (40, 1)]).pressedEdge = true := by
  decide

/-- C6 amended: for both debounce machines (`AnalogButton::update` and
`GpioButton::update`), with a raw signal that stays flipped from the first
processed poll `t0` onward, the committed pressed state after running any such
poll sequence is true exactly when some later poll `u` satisfies
`u - t0 ≥ debounceMs` — the stability clock starts at the first poll that
observes the flip (which records the candidate), not at the moment the raw
signal flipped; applied to every prefix of the poll list this says the
committed state changes exactly once, at the first such poll. The pressed edge
flag is latched together with the commit and the released edge is untouched. -/
theorem C6_debounce_commit :
    (∀ (s : AnalogButton) (r : ℤ) (t0 : ℕ) (rest : List ℕ),
      s.adcOpen = true → s.pressed = false → s.candidatePressed = false →
      s.pressedEdge = false → 0 ≤ r → s.pressRaw ≤ r → s.releaseRaw < r →
      s.lastReadMs + s.readPeriodMs ≤ t0 →
      List.Chain (fun a b => a + s.readPeriodMs ≤ b) t0 rest →
      t0 < 2 ^ 64 → (∀ u ∈ rest, u < 2 ^ 64) →
      (((AnalogButton.runPolls s ((t0 :: rest).map (fun u => (u, r)))).pressed = true ↔
          ∃ u ∈ rest, t0 + s.debounceMs ≤ u) ∧
        (AnalogButton.runPolls s ((t0 :: rest).map (fun u => (u, r)))).pressedEdge =
          (AnalogButton.runPolls s ((t0 :: rest).map (fun u => (u, r)))).pressed ∧
        (AnalogButton.runPolls s ((t0 :: rest).map (fun u => (u, r)))).releasedEdge =
          s.releasedEdge)) ∧
    (∀ (g : GpioButton) (v : ℤ) (t0 : ℕ) (rest : List ℕ),
      g.hasRequest = true → 0 ≤ g.lineOffset → g.pressed = false →
      g.candidatePressed = false → g.pressedEdge = false → 0 < v →
      g.lastReadMs + g.readPeriodMs ≤ t0 →
      List.Chain (fun a b => a + g.readPeriodMs ≤ b) t0 rest →
      t0 < 2 ^ 64 → (∀ u ∈ rest, u < 2 ^ 64) →
      (((GpioButton.runPolls g ((t0 :: rest).map (fun u => (u, v)))).pressed = true ↔
          ∃ u ∈ rest, t0 + g.debounceMs ≤ u) ∧
        (GpioButton.runPolls g ((t0 :: rest).map (fun u => (u, v)))).pressedEdge =
          (GpioButton.runPolls g ((t0 :: rest).map (fun u => (u, v)))).pressed ∧
        (GpioButton.runPolls g ((t0 :: rest).map (fun u => (u, v)))).releasedEdge =
          g.releasedEdge)) := by
  constructor
  · intro s r t0 rest hopen hp hc hpe hr0 hrp hrr hfirst hchain ht0lt hbound
    have hproc : ¬(0 < s.readPeriodMs ∧ u64sub t0 s.lastReadMs < s.readPeriodMs) := by
      rw [u64sub_eq (by omega) ht0lt]; omega
    have hopen2 : ¬(s.adcOpen = false) := by simp [hopen]
    have hupd : s.update t0 r =
        {s with lastReadMs := t0, lastRaw := r, candidatePressed := true, candidateSinceMs := t0} := by
      rw [AnalogButton.update, if_neg hopen2, if_neg hproc]
      simp [hp, hc, not_lt.mpr hr0, hrp]
    rw [List.map_cons, analogButton_runPolls_cons]
    simp only at hupd ⊢
    rw [hupd]
    exact analogButton_runPolls_pending rest _ r t0 hopen hp rfl hpe rfl hr0 hrp hrr
      hchain hbound le_rfl
  · intro g v t0 rest hreq hoff hp hc hpe hv hfirst hchain ht0lt hbound
    have hproc : ¬(0 < g.readPeriodMs ∧ u64sub t0 g.lastReadMs < g.readPeriodMs) := by
      rw [u64sub_eq (by omega) ht0lt]; omega
    have hguard : ¬(g.hasRequest = false ∨ g.lineOffset < 0) := by
      simp [hreq]; omega
    have hv0 : v ≠ 0 := by omega
    have hupd : g.update t0 v =
        {g with lastReadMs := t0, candidatePressed := true, candidateSinceMs := t0} := by
      rw [GpioButton.update, if_neg hguard, if_neg hproc]
      simp [hp, hc, not_lt.mpr (le_of_lt hv), hv0]
    rw [List.map_cons, gpioButton_runPolls_cons]
    simp only at hupd ⊢
    rw [hupd]
    exact gpioButton_runPolls_pending rest _ v t0 hreq hoff hp rfl hpe rfl hv
      hchain hbound le_rfl

/-- Witness for C6 at concrete poll sequences: the Scenario C GPIO button
(polls at 10, 20, 30, 40 with the level flipped from t = 0) latches pressed,
and a default analog button polled at 20, 40, 60 with raw 800 latches pressed. -/
theorem C6_debounce_commit_witness :
    (GpioButton.runPolls {} ([10, 20, 30, 40].map (fun u => (u, 1)))).pressed = true ∧
    (AnalogButton.runPolls {} ([20, 40, 60].map (fun u => (u, 800)))).pressed = true := by
  have h := C6_debounce_commit
  constructor
  · exact (h.2 {} 1 10 [20, 30, 40] rfl (by decide) rfl rfl rfl (by decide)
      (by decide)
      (.cons (by decide) (.cons (by decide) (.cons (by decide) .nil)))
      (by decide) (by decide)).1.mpr
      ⟨40, by decide, by decide⟩
  · exact (h.1 {} 800 20 [40, 60] rfl rfl rfl rfl (by decide) (by decide)
      (by decide) (by decide)
      (.cons (by decide) (.cons (by decide) .nil))
      (by decide) (by decide)).1.mpr
      ⟨60, by decide, by decide⟩

/-! ### ColumnSonifier (`src/ColumnSonifier.cpp`) and the ofApp audio path
(`src/ofApp.cpp`)

Transcendental library functions and the `TWO_PI` constant are collected in
`MathFns` and threaded through the embedding: the properties below use only
algebraic facts about them, never particular values. -/

/-- Library math functions used by the synthesis code: `sin`, `powf(2, ·)`,
`sqrt`, and the value of the `TWO_PI` constant. -/
structure MathFns where
  sinf : ℚ → ℚ
  pow2f : ℚ → ℚ
  sqrtf : ℚ → ℚ
  twoPi : ℚ

/-- The float value of the openFrameworks `TWO_PI` constant (2 times pi rounded
to binary32). -/
def floatTwoPi : ℚ := 13176795 / 2097152

/-- Grayscale `ofPixels`: a row-major byte buffer plus its allocation flag. -/
structure OfPixels where
  data : List ℕ
  allocated : Bool

/-- An `ofSoundBuffer`: interleaved samples with a frame and channel count. -/
structure OfSoundBuffer where
  numFrames : ℕ
  numChannels : ℕ
  buffer : List ℚ

/-- State of `class ColumnSonifier` (defaults from `ColumnSonifier.h`). -/
structure ColumnSonifier where
  sampleRate : ℚ := 44100
  bufferSize : ℕ := 512
  volume : ℚ := 1/2
  minFreq : ℚ := 100
  maxFreq : ℚ := 4000
  brightnessThreshold : ℚ := 1/10
  phases : List ℚ := []
  audioBuffer : List ℚ := []

/-- One sample step of the per-row phase accumulator:
`phase += phaseInc; if (phase >= TWO_PI) phase -= TWO_PI;`. -/
def phaseStep (twoPi phaseInc phase : ℚ) : ℚ :=
  let p := phase + phaseInc
  if p ≥ twoPi then p - twoPi else p

/-- The inner sample loop shared verbatim by `ColumnSonifier::addFrequencyToBuffer`
and `ofApp::addFrequencyToBuffer`: walk the audio buffer front to back, adding
`sin(phase) * brightness * volume` to each sample and advancing/wrapping the
phase; returns the new buffer and the final phase. -/
def oscRowLoop (sinf : ℚ → ℚ) (twoPi brightness volume phaseInc : ℚ) :
    List ℚ → ℚ → List ℚ × ℚ
  | [], phase => ([], phase)
  | b :: rest, phase =>
    let b2 := b + sinf phase * brightness * volume
    let out := oscRowLoop sinf twoPi brightness volume phaseInc rest
      (phaseStep twoPi phaseInc phase)
    (b2 :: out.1, out.2)

namespace ColumnSonifier

/-- Embedding of `ColumnSonifier::getPixelBrightness`. -/
def getPixelBrightness (pixels : OfPixels) (imgWidth x y : ℕ) : ℚ :=
  ((pixels.data.getD (y * imgWidth + x) 0 : ℕ) : ℚ) / 255

/-- Embedding of `ColumnSonifier::calculateFrequencyFromY`. C `int` division
and remainder are `Int.tdiv`/`Int.tmod`; the `scale[...]` vector read is only
well defined (in the C++ sense) when `noteIndex` is nonnegative, which holds
for every in-range row. -/
def calculateFrequencyFromY (m : MathFns) (s : ColumnSonifier) (y totalHeight : ℕ) : ℚ :=
  let scale : List ℤ := [0, 3, 5, 7, 10, 12]
  let normalizedY : ℚ := if 1 < totalHeight then 1 - (y : ℚ) / ((totalHeight : ℚ) - 1) else 1
  let totalNotes : ℤ := (scale.length : ℤ) * 4
  let noteIndex : ℤ := cTrunc (normalizedY * ((totalNotes : ℚ) - 1))
  let octave : ℤ := noteIndex.tdiv ((scale.length : ℤ))
  let scaleNote : ℤ := scale.getD (noteIndex.tmod ((scale.length : ℤ))).toNat 0
  let midiNote : ℚ := ((48 + octave * 12 + scaleNote : ℤ) : ℚ)
  let baseFreq : ℚ := 440 * m.pow2f ((midiNote - 69) / 12)
  ofMapClamped baseFreq (1308128 / 10000) (20930045 / 10000) s.minFreq s.maxFreq

/-- Embedding of `ColumnSonifier::addFrequencyToBuffer`. -/
def addFrequencyToBuffer (m : MathFns) (s : ColumnSonifier)
    (y : ℕ) (brightness : ℚ) (totalHeight : ℕ) : ColumnSonifier :=
  let freq := calculateFrequencyFromY m s y totalHeight
  let phaseInc := freq / s.sampleRate * m.twoPi
  let out := oscRowLoop m.sinf m.twoPi brightness s.volume phaseInc
    s.audioBuffer (s.phases.getD y 0)
  {s with audioBuffer := out.1, phases := s.phases.set y out.2}

/-- Embedding of `ColumnSonifier::normalizeAudioBuffer`. -/
def normalizeAudioBuffer (m : MathFns) (s : ColumnSonifier)
    (activeFrequencies : ℕ) : ColumnSonifier :=
  if activeFrequencies = 0 then s
  else {s with audioBuffer :=
    s.audioBuffer.map (fun q => q * (1 / m.sqrtf ((activeFrequencies : ℕ) : ℚ)))}

/-- One pass of the row loop of `ColumnSonifier::synthesizeColumn` over an
explicit list of row indices, carrying the state and the `active` counter:
rows whose brightness exceeds the threshold add an oscillator and bump the
counter, the others are skipped. -/
def synthRows (m : MathFns) (pixels : OfPixels) (imgWidth imgHeight columnX : ℕ) :
    List ℕ → ColumnSonifier × ℕ → ColumnSonifier × ℕ
  | [], acc => acc
  | y :: ys, acc =>
    let b := getPixelBrightness pixels imgWidth columnX y
    let acc2 := if b > acc.1.brightnessThreshold
      then (addFrequencyToBuffer m acc.1 y b imgHeight, acc.2 + 1) else acc
    synthRows m pixels imgWidth imgHeight columnX ys acc2

/-- The row loop of `ColumnSonifier::synthesizeColumn` after the scratch buffer
has been zeroed: run `synthRows` over rows `0, ..., imgHeight - 1`. Returns the
pre-normalization state and the active row count. -/
def synthesizeColumnSteps (m : MathFns) (s : ColumnSonifier) (pixels : OfPixels)
    (imgWidth imgHeight columnX : ℕ) : ColumnSonifier × ℕ :=
  synthRows m pixels imgWidth imgHeight columnX (List.range imgHeight)
    ({s with audioBuffer := List.replicate s.bufferSize 0}, 0)

/-- Embedding of `ColumnSonifier::synthesizeColumn`: zero the scratch buffer,
run the row loop, then normalize by the active row count. -/
def synthesizeColumn (m : MathFns) (s : ColumnSonifier) (pixels : OfPixels)
    (imgWidth imgHeight columnX : ℕ) : ColumnSonifier :=
  let p := synthesizeColumnSteps m s pixels imgWidth imgHeight columnX
  normalizeAudioBuffer m p.1 p.2

/-- Embedding of `ColumnSonifier::ensurePhasesSize`. -/
def ensurePhasesSize (s : ColumnSonifier) (height : ℕ) : ColumnSonifier :=
  if s.phases.length ≠ height then {s with phases := List.replicate height 0} else s

/-- Embedding of `ColumnSonifier::renderColumnToBuffer`. Image dimensions and
the column index are C `int`, hence `ℤ`. -/
def renderColumnToBuffer (m : MathFns) (s : ColumnSonifier) (pixels : OfPixels)
    (imgWidth imgHeight columnX : ℤ) (out : OfSoundBuffer) :
    ColumnSonifier × OfSoundBuffer :=
  if imgWidth ≤ 0 ∨ imgHeight ≤ 0 ∨ pixels.allocated = false then
    (s, {out with buffer := List.replicate (out.numFrames * out.numChannels) 0})
  else
    let clampedX := (max 0 (min columnX (imgWidth - 1))).toNat
    let s1 := ensurePhasesSize s imgHeight.toNat
    let s2 := synthesizeColumn m s1 pixels imgWidth.toNat imgHeight.toNat clampedX
    let newBuf :=
      (List.range out.numFrames).foldl
        (fun buf i =>
          let sample := s2.audioBuffer.getD i 0
          (buf.set (i * 2) sample).set (i * 2 + 1) sample)
        out.buffer
    (s2, {out with buffer := newBuf})

end ColumnSonifier

/-- Declarative count of the rows of a column whose brightness exceeds the
threshold (the specification-side quantity `activeRowCount`). -/
def activeRowCount (thr : ℚ) (pixels : OfPixels) (imgWidth imgHeight columnX : ℕ) : ℕ :=
  ((List.range imgHeight).filter
    (fun y => ColumnSonifier.getPixelBrightness pixels imgWidth columnX y > thr)).length

/-- Trivial instantiation of the library math functions, used by concrete
witnesses (the theorems never depend on particular values of these). -/
def mathFnsUnit : MathFns :=
  { sinf := fun _ => 0, pow2f := fun _ => 1, sqrtf := fun _ => 1, twoPi := floatTwoPi }

/-- C2: when no processed brightness map is available (pixels not allocated) or
the image width or height is nonpositive, `renderColumnToBuffer` writes zero to
every one of the `numFrames * numChannels` samples of the output buffer,
leaves the frame and channel counts as requested, and leaves the sonifier
state (in particular the phase accumulators) completely untouched; the
function is total, so the audio path raises no error. -/
theorem C2_silence_fallback (m : MathFns) (s : ColumnSonifier) (pixels : OfPixels)
    (w h x : ℤ) (out : OfSoundBuffer)
    (hbad : w ≤ 0 ∨ h ≤ 0 ∨ pixels.allocated = false) :
    (ColumnSonifier.renderColumnToBuffer m s pixels w h x out).2.buffer =
      List.replicate (out.numFrames * out.numChannels) 0 ∧
    (ColumnSonifier.renderColumnToBuffer m s pixels w h x out).2.numFrames = out.numFrames ∧
    (ColumnSonifier.renderColumnToBuffer m s pixels w h x out).2.numChannels = out.numChannels ∧
    (ColumnSonifier.renderColumnToBuffer m s pixels w h x out).1 = s := by
  rw [ColumnSonifier.renderColumnToBuffer, if_pos hbad]
  exact ⟨rfl, rfl, rfl, rfl⟩

/-- Witness for C2: an unallocated pixel buffer with positive dimensions yields
four zero samples and an unchanged sonifier. -/
theorem C2_silence_fallback_witness :
    (ColumnSonifier.renderColumnToBuffer mathFnsUnit {} {data := [], allocated := false}
      4 3 1 {numFrames := 2, numChannels := 2, buffer := [1, 2, 3, 4]}).2.buffer =
      List.replicate (2 * 2) 0 ∧
    (ColumnSonifier.renderColumnToBuffer mathFnsUnit {} {data := [], allocated := false}
      4 3 1 {numFrames := 2, numChannels := 2, buffer := [1, 2, 3, 4]}).2.numFrames = 2 ∧
    (ColumnSonifier.renderColumnToBuffer mathFnsUnit {} {data := [], allocated := false}
      4 3 1 {numFrames := 2, numChannels := 2, buffer := [1, 2, 3, 4]}).2.numChannels = 2 ∧
    (ColumnSonifier.renderColumnToBuffer mathFnsUnit {} {data := [], allocated := false}
      4 3 1 {numFrames := 2, numChannels := 2, buffer := [1, 2, 3, 4]}).1 = {} :=
  C2_silence_fallback mathFnsUnit {} {data := [], allocated := false} 4 3 1
    {numFrames := 2, numChannels := 2, buffer := [1, 2, 3, 4]} (Or.inr (Or.inr rfl))

/-! ### Lemmas about the synthesis loops (for C1) -/

theorem getPixelBrightness_nonneg (pixels : OfPixels) (imgWidth x y : ℕ) :
    0 ≤ ColumnSonifier.getPixelBrightness pixels imgWidth x y := by
  unfold ColumnSonifier.getPixelBrightness
  positivity

theorem oscRowLoop_length (f : ℚ → ℚ) (tp br vol pinc : ℚ) (buf : List ℚ) (φ : ℚ) :
    (oscRowLoop f tp br vol pinc buf φ).1.length = buf.length := by
  induction buf generalizing φ with
  | nil => rfl
  | cons b rest ih => simp [oscRowLoop, ih]

theorem oscRowLoop_abs_le (f : ℚ → ℚ) (tp br vol pinc c : ℚ)
    (hsin : ∀ q, |f q| ≤ 1) (hb : 0 ≤ br) (hv : 0 ≤ vol) :
    ∀ (buf : List ℚ) (φ : ℚ), (∀ z ∈ buf, |z| ≤ c) →
      ∀ z ∈ (oscRowLoop f tp br vol pinc buf φ).1, |z| ≤ c + br * vol := by
  intro buf
  induction buf with
  | nil =>
    intro φ hbuf z hz
    simp [oscRowLoop] at hz
  | cons b rest ih =>
    intro φ hbuf z hz
    simp only [oscRowLoop, List.mem_cons] at hz
    rcases hz with rfl | hzm
    · have h1 : |f φ * br * vol| = |f φ| * br * vol := by
        rw [abs_mul, abs_mul, abs_of_nonneg hb, abs_of_nonneg hv]
      have h2 := hsin φ
      have hbv : |f φ| * br * vol ≤ br * vol := by
        have h3 := mul_le_mul_of_nonneg_right (mul_le_mul_of_nonneg_right h2 hb) hv
        linarith
      have hb0 := hbuf b (List.mem_cons_self b rest)
      calc |b + f φ * br * vol| ≤ |b| + |f φ * br * vol| := abs_add _ _
        _ ≤ c + br * vol := by rw [h1]; linarith
    · exact ih (phaseStep tp pinc φ) (fun w hw => hbuf w (List.mem_cons_of_mem b hw)) z hzm

theorem synthRows_count (m : MathFns) (pixels : OfPixels) (w h x : ℕ) (thr : ℚ)
    (ys : List ℕ) :
    ∀ (s : ColumnSonifier) (c : ℕ), s.brightnessThreshold = thr →
      (ColumnSonifier.synthRows m pixels w h x ys (s, c)).2 =
        c + (ys.filter
          (fun y => ColumnSonifier.getPixelBrightness pixels w x y > thr)).length := by
  induction ys with
  | nil => intro s c hthr; simp [ColumnSonifier.synthRows]
  | cons y ys ih =>
    intro s c hthr
    simp only [ColumnSonifier.synthRows, List.filter_cons]
    by_cases hy : ColumnSonifier.getPixelBrightness pixels w x y > thr
    · rw [if_pos (hthr ▸ hy), if_pos (by simpa using hy)]
      rw [ih (ColumnSonifier.addFrequencyToBuffer m s y
        (ColumnSonifier.getPixelBrightness pixels w x y) h) (c + 1) hthr]
      simp [Nat.add_assoc, Nat.add_comm 1]
    · rw [if_neg (hthr ▸ hy), if_neg (by simpa using hy)]
      exact ih s c hthr

theorem synthRows_inactive (m : MathFns) (pixels : OfPixels) (w h x : ℕ)
    (ys : List ℕ) :
    ∀ (s : ColumnSonifier) (c : ℕ),
      (∀ y ∈ ys, ¬(ColumnSonifier.getPixelBrightness pixels w x y > s.brightnessThreshold)) →
      ColumnSonifier.synthRows m pixels w h x ys (s, c) = (s, c) := by
  induction ys with
  | nil => intro s c hys; rfl
  | cons y ys ih =>
    intro s c hys
    simp only [ColumnSonifier.synthRows]
    rw [if_neg (hys y (List.mem_cons_self y ys))]
    exact ih s c (fun z hz => hys z (List.mem_cons_of_mem y hz))

theorem synthRows_abs_le (m : MathFns) (pixels : OfPixels) (w h x : ℕ)
    (b vol thr : ℚ)
    (hsin : ∀ q, |m.sinf q| ≤ 1) (hv : 0 ≤ vol) (ys : List ℕ) :
    ∀ (s : ColumnSonifier) (c : ℕ), s.volume = vol → s.brightnessThreshold = thr →
      (∀ y ∈ ys, ColumnSonifier.getPixelBrightness pixels w x y > thr →
        ColumnSonifier.getPixelBrightness pixels w x y = b) →
      (∀ q ∈ s.audioBuffer, |q| ≤ (c : ℚ) * (b * vol)) →
      ∀ q ∈ (ColumnSonifier.synthRows m pixels w h x ys (s, c)).1.audioBuffer,
        |q| ≤ (((ColumnSonifier.synthRows m pixels w h x ys (s, c)).2 : ℕ) : ℚ) * (b * vol) := by
  induction ys with
  | nil => intro s c hvol hthr heq hbuf; exact hbuf
  | cons y ys ih =>
    intro s c hvol hthr heq hbuf
    simp only [ColumnSonifier.synthRows]
    by_cases hy : ColumnSonifier.getPixelBrightness pixels w x y > thr
    · rw [if_pos (hthr ▸ hy)]
      have hby := heq y (List.mem_cons_self y ys) hy
      have hbuf2 : ∀ q ∈ (ColumnSonifier.addFrequencyToBuffer m s y
          (ColumnSonifier.getPixelBrightness pixels w x y) h).audioBuffer,
          |q| ≤ ((c + 1 : ℕ) : ℚ) * (b * vol) := by
        intro q hq
        have hstep := oscRowLoop_abs_le m.sinf m.twoPi
          (ColumnSonifier.getPixelBrightness pixels w x y) s.volume
          (ColumnSonifier.calculateFrequencyFromY m s y h / s.sampleRate * m.twoPi)
          ((c : ℚ) * (b * vol)) hsin (getPixelBrightness_nonneg pixels w x y)
          (hvol ▸ hv) s.audioBuffer (s.phases.getD y 0) hbuf q hq
        rw [hby, hvol] at hstep
        have hc : ((c + 1 : ℕ) : ℚ) * (b * vol) = (c : ℚ) * (b * vol) + b * vol := by
          push_cast; ring
        rw [hc]
        exact hstep
      exact ih (ColumnSonifier.addFrequencyToBuffer m s y
          (ColumnSonifier.getPixelBrightness pixels w x y) h) (c + 1)
        hvol hthr (fun z hz => heq z (List.mem_cons_of_mem y hz)) hbuf2
    · rw [if_neg (hthr ▸ hy)]
      exact ih s c hvol hthr (fun z hz => heq z (List.mem_cons_of_mem y hz)) hbuf

/-- C1: in `synthesizeColumn`, when the number `k` of rows whose brightness
exceeds the threshold is positive, every sample of the mono scratch buffer is
the raw oscillator sum scaled by exactly `1/sqrt(k)`; when `k = 0` the scratch
buffer stays all zeros; and when all `k` active rows share brightness `b` the
peak amplitude of the normalized buffer is bounded by `b * volume * sqrt(k)`
(linear growth is prevented). The square-root and sine functions are abstract,
constrained only by `|sin| ≤ 1` and `sqrt(k)^2 = k`, `sqrt(k) > 0`. -/
theorem C1_loudness_normalization (m : MathFns) (s : ColumnSonifier) (pixels : OfPixels)
    (w h x : ℕ)
    (hsin : ∀ q, |m.sinf q| ≤ 1) (hvol : 0 ≤ s.volume)
    (hsq : 0 < activeRowCount s.brightnessThreshold pixels w h x →
      0 < m.sqrtf (activeRowCount s.brightnessThreshold pixels w h x) ∧
      m.sqrtf (activeRowCount s.brightnessThreshold pixels w h x) *
        m.sqrtf (activeRowCount s.brightnessThreshold pixels w h x) =
        (activeRowCount s.brightnessThreshold pixels w h x : ℚ)) :
    ((ColumnSonifier.synthesizeColumnSteps m s pixels w h x).2 =
      activeRowCount s.brightnessThreshold pixels w h x) ∧
    (0 < activeRowCount s.brightnessThreshold pixels w h x →
      (ColumnSonifier.synthesizeColumn m s pixels w h x).audioBuffer =
        (ColumnSonifier.synthesizeColumnSteps m s pixels w h x).1.audioBuffer.map
          (fun q => q * (1 / m.sqrtf (activeRowCount s.brightnessThreshold pixels w h x)))) ∧
    (activeRowCount s.brightnessThreshold pixels w h x = 0 →
      (ColumnSonifier.synthesizeColumn m s pixels w h x).audioBuffer =
        List.replicate s.bufferSize 0) ∧
    (∀ b : ℚ,
      (∀ y, y < h → ColumnSonifier.getPixelBrightness pixels w x y > s.brightnessThreshold →
        ColumnSonifier.getPixelBrightness pixels w x y = b) →
      0 < activeRowCount s.brightnessThreshold pixels w h x →
      ∀ q ∈ (ColumnSonifier.synthesizeColumn m s pixels w h x).audioBuffer,
        |q| ≤ b * s.volume * m.sqrtf (activeRowCount s.brightnessThreshold pixels w h x)) := by
  have hcount : (ColumnSonifier.synthesizeColumnSteps m s pixels w h x).2 =
      activeRowCount s.brightnessThreshold pixels w h x := by
    unfold ColumnSonifier.synthesizeColumnSteps activeRowCount
    rw [synthRows_count m pixels w h x s.brightnessThreshold (List.range h)
      {s with audioBuffer := List.replicate s.bufferSize 0} 0 rfl]
    exact Nat.zero_add _
  refine ⟨hcount, ?_, ?_, ?_⟩
  · intro hK
    simp only [ColumnSonifier.synthesizeColumn, ColumnSonifier.normalizeAudioBuffer]
    rw [hcount, if_neg (by omega)]
  · intro hK0
    have hfilter : (List.range h).filter
        (fun y => ColumnSonifier.getPixelBrightness pixels w x y > s.brightnessThreshold) = [] := by
      have := hK0
      unfold activeRowCount at this
      exact List.length_eq_zero.mp this
    have hempty : ∀ y ∈ List.range h,
        ¬(ColumnSonifier.getPixelBrightness pixels w x y > s.brightnessThreshold) := by
      intro y hy hgt
      have hmem : y ∈ (List.range h).filter
          (fun y => ColumnSonifier.getPixelBrightness pixels w x y > s.brightnessThreshold) :=
        List.mem_filter.mpr ⟨hy, by simpa using hgt⟩
      rw [hfilter] at hmem
      simp at hmem
    simp only [ColumnSonifier.synthesizeColumn, ColumnSonifier.synthesizeColumnSteps]
    rw [synthRows_inactive m pixels w h x (List.range h)
      {s with audioBuffer := List.replicate s.bufferSize 0} 0 hempty]
    rfl
  · intro b heq hK
    have hb : 0 ≤ b := by
      have hne : (List.range h).filter
          (fun y => ColumnSonifier.getPixelBrightness pixels w x y > s.brightnessThreshold) ≠ [] := by
        intro hnil
        unfold activeRowCount at hK
        rw [hnil] at hK
        simp at hK
      obtain ⟨y, hy⟩ := List.exists_mem_of_ne_nil _ hne
      have hy2 := List.mem_filter.mp hy
      have hgt : ColumnSonifier.getPixelBrightness pixels w x y > s.brightnessThreshold := by
        simpa using hy2.2
      have hyh : y < h := List.mem_range.mp hy2.1
      rw [← heq y hyh hgt]
      exact getPixelBrightness_nonneg pixels w x y
    obtain ⟨hs1, hs2⟩ := hsq hK
    have hraw := synthRows_abs_le m pixels w h x b s.volume s.brightnessThreshold hsin hvol
      (List.range h) {s with audioBuffer := List.replicate s.bufferSize 0} 0 rfl rfl
      (fun y hy hgt => heq y (List.mem_range.mp hy) hgt)
      (by
        intro q hq
        have := List.eq_of_mem_replicate hq
        subst this
        simp)
    intro q hq
    simp only [ColumnSonifier.synthesizeColumn, ColumnSonifier.normalizeAudioBuffer] at hq
    rw [hcount, if_neg (by omega)] at hq
    simp only [List.mem_map] at hq
    obtain ⟨q0, hq0, rfl⟩ := hq
    have hsteps : ColumnSonifier.synthesizeColumnSteps m s pixels w h x =
        ColumnSonifier.synthRows m pixels w h x (List.range h)
          ({s with audioBuffer := List.replicate s.bufferSize 0}, 0) := rfl
    have hq0bound := hraw q0 (by
      simpa only [ColumnSonifier.synthesizeColumnSteps] using hq0)
    rw [← hsteps, hcount] at hq0bound
    have habs : |q0 * (1 / m.sqrtf (activeRowCount s.brightnessThreshold pixels w h x))| =
        |q0| * (1 / m.sqrtf (activeRowCount s.brightnessThreshold pixels w h x)) := by
      rw [abs_mul, abs_of_pos (by positivity : (0:ℚ) <
        1 / m.sqrtf (activeRowCount s.brightnessThreshold pixels w h x))]
    rw [habs]
    have hstep := mul_le_mul_of_nonneg_right hq0bound
      (by positivity : (0:ℚ) ≤ 1 / m.sqrtf (activeRowCount s.brightnessThreshold pixels w h x))
    have hne : m.sqrtf (activeRowCount s.brightnessThreshold pixels w h x) ≠ 0 :=
      ne_of_gt hs1
    have h9 : m.sqrtf (activeRowCount s.brightnessThreshold pixels w h x) *
        (1 / m.sqrtf (activeRowCount s.brightnessThreshold pixels w h x)) = 1 := by
      rw [mul_one_div, div_self hne]
    have hfinal : ((activeRowCount s.brightnessThreshold pixels w h x : ℕ) : ℚ) * (b * s.volume) *
        (1 / m.sqrtf (activeRowCount s.brightnessThreshold pixels w h x)) =
        b * s.volume * m.sqrtf (activeRowCount s.brightnessThreshold pixels w h x) := by
      nth_rewrite 1 [← hs2]
      rw [show m.sqrtf (activeRowCount s.brightnessThreshold pixels w h x) *
            m.sqrtf (activeRowCount s.brightnessThreshold pixels w h x) * (b * s.volume) *
            (1 / m.sqrtf (activeRowCount s.brightnessThreshold pixels w h x)) =
          b * s.volume * m.sqrtf (activeRowCount s.brightnessThreshold pixels w h x) *
            (m.sqrtf (activeRowCount s.brightnessThreshold pixels w h x) *
              (1 / m.sqrtf (activeRowCount s.brightnessThreshold pixels w h x))) from by ring,
        h9, mul_one]
    rw [hfinal] at hstep
    exact le_trans hstep le_rfl

/-- Concrete inputs for the C1 witness: a one-pixel-wide, two-row column whose
top row is fully bright (exactly one active row) and a two-sample buffer. -/
def onePixelColumn : OfPixels := { data := [255, 0], allocated := true }

/-- Sonifier with a two-sample buffer for the C1 witness. -/
def smallSonifier : ColumnSonifier := { bufferSize := 2 }

/-- Witness for C1 at one active row (`k = 1`, so `sqrt k = 1`). -/
theorem C1_loudness_normalization_witness :
    ((ColumnSonifier.synthesizeColumnSteps mathFnsUnit smallSonifier onePixelColumn 1 2 0).2 =
      activeRowCount smallSonifier.brightnessThreshold onePixelColumn 1 2 0) ∧
    ((ColumnSonifier.synthesizeColumn mathFnsUnit smallSonifier onePixelColumn 1 2 0).audioBuffer =
      (ColumnSonifier.synthesizeColumnSteps mathFnsUnit smallSonifier
          onePixelColumn 1 2 0).1.audioBuffer.map
        (fun q => q * (1 / mathFnsUnit.sqrtf
          (activeRowCount smallSonifier.brightnessThreshold onePixelColumn 1 2 0)))) := by
  have hK : activeRowCount smallSonifier.brightnessThreshold onePixelColumn 1 2 0 = 1 := by
    norm_num [activeRowCount, ColumnSonifier.getPixelBrightness, onePixelColumn,
      smallSonifier, List.range_succ, List.filter_append, List.filter_cons]
  have h := C1_loudness_normalization mathFnsUnit smallSonifier onePixelColumn 1 2 0
    (fun q => by simp [mathFnsUnit]) (by norm_num [smallSonifier])
    (fun hk => ⟨by norm_num [mathFnsUnit], by rw [hK]; norm_num [mathFnsUnit]⟩)
  exact ⟨h.1, h.2.1 (by rw [hK]; norm_num)⟩

/-! ### Phase wrap lemmas (for C3) -/

theorem phaseStep_mem {twoPi phaseInc phase : ℚ} (h0 : 0 ≤ phase) (h1 : phase < twoPi)
    (hi0 : 0 ≤ phaseInc) (hi1 : phaseInc < twoPi) :
    0 ≤ phaseStep twoPi phaseInc phase ∧ phaseStep twoPi phaseInc phase < twoPi := by
  simp only [phaseStep]
  split_ifs with h <;> constructor <;> linarith

theorem oscRowLoop_phase_mem (f : ℚ → ℚ) (tp br vol pinc : ℚ)
    (hi0 : 0 ≤ pinc) (hi1 : pinc < tp) :
    ∀ (buf : List ℚ) (φ : ℚ), 0 ≤ φ → φ < tp →
      0 ≤ (oscRowLoop f tp br vol pinc buf φ).2 ∧
      (oscRowLoop f tp br vol pinc buf φ).2 < tp := by
  intro buf
  induction buf with
  | nil => intro φ h0 h1; exact ⟨h0, h1⟩
  | cons b rest ih =>
    intro φ h0 h1
    simp only [oscRowLoop]
    obtain ⟨g0, g1⟩ := phaseStep_mem h0 h1 hi0 hi1
    exact ih (phaseStep tp pinc φ) g0 g1

/-- Inputs of the C3 counterexample: a sonifier with `sampleRate = 1` and a
frequency range pinned to 13 Hz, so the computed phase increment
`freq / sampleRate * TWO_PI = 13 * TWO_PI` exceeds `2 * pi`. -/
def phaseCxS : ColumnSonifier :=
  { sampleRate := 1, bufferSize := 1, volume := 1, minFreq := 13, maxFreq := 13,
    phases := [0], audioBuffer := [0] }

/-- C3 counterexample: the wrap step is a single conditional subtraction, not a
loop, so when the phase increment is at least `2 * TWO_PI` one buffer sample
pushes the stored phase outside `[0, 2 pi)`: starting from phase 0 (in range),
after one sample of a 13 Hz oscillator at `sampleRate = 1` the stored phase is
`12 * TWO_PI`, which is not `< TWO_PI` — refuting the claim that the invariant
holds regardless of whether the phase increment exceeds `2 pi`. -/
theorem C3_counterexample :
    (0 ≤ phaseCxS.phases.getD 0 0 ∧ phaseCxS.phases.getD 0 0 < mathFnsUnit.twoPi) ∧
    ColumnSonifier.calculateFrequencyFromY mathFnsUnit phaseCxS 0 1 = 13 ∧
    ¬((ColumnSonifier.addFrequencyToBuffer mathFnsUnit phaseCxS 0 1 1).phases.getD 0 0 <
      mathFnsUnit.twoPi) := by
  have htd : Int.tdiv 23 6 = 3 := by decide
  have htm : Int.tmod 23 6 = 5 := by decide
  have hfreq : ColumnSonifier.calculateFrequencyFromY mathFnsUnit phaseCxS 0 1 = 13 := by
    rw [ColumnSonifier.calculateFrequencyFromY]
    norm_num [phaseCxS, mathFnsUnit, cTrunc, htd, htm, ofMapClamped]
  refine ⟨⟨by norm_num [phaseCxS], by norm_num [phaseCxS, mathFnsUnit, floatTwoPi]⟩, hfreq, ?_⟩
  rw [ColumnSonifier.addFrequencyToBuffer, hfreq]
  norm_num [phaseCxS, mathFnsUnit, oscRowLoop, phaseStep, floatTwoPi]

/-- C3 amended: the per-row phase accumulators stay in `[0, 2 pi)` across a
whole buffer synthesized by `addFrequencyToBuffer` PROVIDED the computed phase
increment `freq / sampleRate * TWO_PI` lies in `[0, 2 pi)` — equivalently
`0 ≤ freq < sampleRate`, which holds for every frequency reachable through the
application parameter ranges (`maxFreq ≤ 10000 < 44100`); the single
conditional subtraction does not restore the invariant when the increment is
`2 pi` or more. -/
theorem C3_phase_wrap_invariant (m : MathFns) (s : ColumnSonifier)
    (y totalHeight : ℕ) (brightness : ℚ)
    (htp : 0 < m.twoPi)
    (hph : ∀ φ ∈ s.phases, 0 ≤ φ ∧ φ < m.twoPi)
    (hinc0 : 0 ≤ ColumnSonifier.calculateFrequencyFromY m s y totalHeight /
      s.sampleRate * m.twoPi)
    (hinc1 : ColumnSonifier.calculateFrequencyFromY m s y totalHeight /
      s.sampleRate * m.twoPi < m.twoPi) :
    ∀ φ ∈ (ColumnSonifier.addFrequencyToBuffer m s y brightness totalHeight).phases,
      0 ≤ φ ∧ φ < m.twoPi := by
  intro φ hmem
  simp only [ColumnSonifier.addFrequencyToBuffer] at hmem
  rcases List.mem_or_eq_of_mem_set hmem with hold | rfl
  · exact hph φ hold
  · have hstart : 0 ≤ s.phases.getD y 0 ∧ s.phases.getD y 0 < m.twoPi := by
      by_cases hy : y < s.phases.length
      · have hg : s.phases.getD y 0 = s.phases[y] := by
          simp [List.getD_eq_getElem?_getD, List.getElem?_eq_getElem hy]
        rw [hg]
        exact hph _ (List.getElem_mem hy)
      · rw [List.getD_eq_default _ _ (le_of_not_lt hy)]
        exact ⟨le_refl 0, htp⟩
    exact oscRowLoop_phase_mem m.sinf m.twoPi brightness s.volume
      (ColumnSonifier.calculateFrequencyFromY m s y totalHeight / s.sampleRate * m.twoPi)
      hinc0 hinc1 s.audioBuffer (s.phases.getD y 0) hstart.1 hstart.2

/-- Sonifier for the C3 witness: default parameters (notably
`sampleRate = 44100`, `minFreq = 100`, `maxFreq = 4000`) and one row. -/
def phaseWitS : ColumnSonifier := { phases := [1], audioBuffer := [0] }

/-- Witness for the amended C3 at an in-range configuration: with the default
sample rate the computed increment is below `2 pi` and the stored phase of row
0 stays in `[0, 2 pi)`. -/
theorem C3_phase_wrap_invariant_witness :
    0 ≤ (ColumnSonifier.addFrequencyToBuffer mathFnsUnit phaseWitS 0 1 2).phases.getD 0 0 ∧
    (ColumnSonifier.addFrequencyToBuffer mathFnsUnit phaseWitS 0 1 2).phases.getD 0 0 <
      mathFnsUnit.twoPi := by
  have htd : Int.tdiv 23 6 = 3 := by decide
  have htm : Int.tmod 23 6 = 5 := by decide
  have hfreq : ColumnSonifier.calculateFrequencyFromY mathFnsUnit phaseWitS 0 2 =
      222547500 / 311459 := by
    rw [ColumnSonifier.calculateFrequencyFromY]
    norm_num [phaseWitS, mathFnsUnit, cTrunc, htd, htm, ofMapClamped]
  have hmain := C3_phase_wrap_invariant mathFnsUnit phaseWitS 0 2 1
    (by norm_num [mathFnsUnit, floatTwoPi])
    (by
      intro φ hφ
      norm_num [phaseWitS] at hφ
      subst hφ
      norm_num [mathFnsUnit, floatTwoPi])
    (by rw [hfreq]; norm_num [phaseWitS, mathFnsUnit, floatTwoPi])
    (by rw [hfreq]; norm_num [phaseWitS, mathFnsUnit, floatTwoPi])
  have hlen : 0 <
      (ColumnSonifier.addFrequencyToBuffer mathFnsUnit phaseWitS 0 1 2).phases.length := by
    simp [ColumnSonifier.addFrequencyToBuffer, phaseWitS]
  have hg : (ColumnSonifier.addFrequencyToBuffer mathFnsUnit phaseWitS 0 1 2).phases.getD 0 0 =
      (ColumnSonifier.addFrequencyToBuffer mathFnsUnit phaseWitS 0 1 2).phases[0] := by
    simp [List.getD_eq_getElem?_getD, List.getElem?_eq_getElem hlen]
  rw [hg]
  exact hmain _ (List.getElem_mem hlen)

/-! ### The in-app audio path state (`src/ofApp.cpp`) -/

/-- The slice of `class ofApp` state relevant to the audio path: synthesis
parameters, the per-row phase accumulators and the processed image height. -/
structure OfApp where
  sampleRate : ℚ := 44100
  bufferSize : ℕ := 512
  volume : ℚ := 1/2
  minFreq : ℚ := 100
  maxFreq : ℚ := 4000
  phases : List ℚ := []
  sobelHeight : ℕ := 0

/-- Semantics of `std::vector<float>::resize(n, v)`: truncate when shrinking,
append copies of `v` when growing; existing entries are preserved. -/
def vecResize (xs : List ℚ) (n : ℕ) (v : ℚ) : List ℚ :=
  if n ≤ xs.length then xs.take n else xs ++ List.replicate (n - xs.length) v

namespace OfApp

/-- Embedding of `ofApp::ensurePhasesVectorSize`: resize (not reassign) the
phase vector when the processed image height differs from its size. -/
def ensurePhasesVectorSize (a : OfApp) : OfApp :=
  if a.phases.length ≠ a.sobelHeight
  then {a with phases := vecResize a.phases a.sobelHeight 0} else a

end OfApp

/-- C4 counterexample: the claim says both paths zero-initialize every entry
whenever the row count changes, but `ofApp::ensurePhasesVectorSize` uses
`std::vector::resize`, which preserves existing entries: growing a one-entry
phase vector `[5]` to two rows yields `[5, 0]`, not `[0, 0]`. -/
theorem C4_counterexample :
    ({phases := [5], sobelHeight := 2} : OfApp).phases.length ≠
      ({phases := [5], sobelHeight := 2} : OfApp).sobelHeight ∧
    (OfApp.ensurePhasesVectorSize {phases := [5], sobelHeight := 2}).phases = [5, 0] ∧
    (OfApp.ensurePhasesVectorSize {phases := [5], sobelHeight := 2}).phases ≠ [0, 0] := by
  refine ⟨by norm_num, ?_, ?_⟩ <;>
    norm_num [OfApp.ensurePhasesVectorSize, vecResize, List.replicate]

/-- C4 amended: when the row count is unchanged both paths leave the phase
array entirely untouched. When it changes, `ColumnSonifier::ensurePhasesSize`
reallocates and zero-initializes every entry, but `ofApp::ensurePhasesVectorSize`
resizes: the surviving prefix keeps its phases and only appended entries are
zero. -/
theorem C4_phase_array_resize :
    (∀ (s : ColumnSonifier) (h : ℕ), s.phases.length = h →
      ColumnSonifier.ensurePhasesSize s h = s) ∧
    (∀ (s : ColumnSonifier) (h : ℕ), s.phases.length ≠ h →
      (ColumnSonifier.ensurePhasesSize s h).phases = List.replicate h 0) ∧
    (∀ a : OfApp, a.phases.length = a.sobelHeight → OfApp.ensurePhasesVectorSize a = a) ∧
    (∀ a : OfApp, a.phases.length ≠ a.sobelHeight →
      (OfApp.ensurePhasesVectorSize a).phases.length = a.sobelHeight ∧
      (∀ i, i < a.phases.length → i < a.sobelHeight →
        (OfApp.ensurePhasesVectorSize a).phases.getD i 0 = a.phases.getD i 0) ∧
      (∀ i, a.phases.length ≤ i → i < a.sobelHeight →
        (OfApp.ensurePhasesVectorSize a).phases.getD i 0 = 0)) := by
  refine ⟨?_, ?_, ?_, ?_⟩
  · intro s h hlen
    rw [ColumnSonifier.ensurePhasesSize, if_neg (by omega)]
  · intro s h hlen
    rw [ColumnSonifier.ensurePhasesSize, if_pos hlen]
  · intro a hlen
    rw [OfApp.ensurePhasesVectorSize, if_neg (by omega)]
  · intro a hlen
    rw [OfApp.ensurePhasesVectorSize, if_pos hlen]
    unfold vecResize
    by_cases hle : a.sobelHeight ≤ a.phases.length
    · rw [if_pos hle]
      refine ⟨by simp [List.length_take]; omega, ?_, ?_⟩
      · intro i hi1 hi2
        rw [List.getD_eq_getElem?_getD, List.getD_eq_getElem?_getD, List.getElem?_take]
        simp [hi2]
      · intro i hi1 hi2
        omega
    · rw [if_neg hle]
      refine ⟨by simp; omega, ?_, ?_⟩
      · intro i hi1 hi2
        rw [List.getD_eq_getElem?_getD, List.getD_eq_getElem?_getD,
          List.getElem?_append_left hi1]
      · intro i hi1 hi2
        rw [List.getD_eq_getElem?_getD, List.getElem?_append_right hi1]
        simp only [List.getElem?_replicate]
        rw [if_pos (by omega)]
        rfl

/-- Witness for C4 at concrete arrays: unchanged count leaves `[3, 4]` alone in
both paths; a grown ofApp vector keeps entry 0 and zero-fills entry 1. -/
theorem C4_phase_array_resize_witness :
    (ColumnSonifier.ensurePhasesSize {phases := [3, 4]} 2 =
      ({phases := [3, 4]} : ColumnSonifier)) ∧
    ((ColumnSonifier.ensurePhasesSize {phases := [3, 4]} 3).phases =
      List.replicate 3 0) ∧
    (OfApp.ensurePhasesVectorSize {phases := [3, 4], sobelHeight := 2} =
      ({phases := [3, 4], sobelHeight := 2} : OfApp)) ∧
    ((OfApp.ensurePhasesVectorSize {phases := [5], sobelHeight := 2}).phases.getD 0 0 =
      ({phases := [5], sobelHeight := 2} : OfApp).phases.getD 0 0 ∧
      (OfApp.ensurePhasesVectorSize {phases := [5], sobelHeight := 2}).phases.getD 1 0 = 0) := by
  have h := C4_phase_array_resize
  refine ⟨h.1 {phases := [3, 4]} 2 (by simp), h.2.1 {phases := [3, 4]} 3 (by simp),
    h.2.2.1 {phases := [3, 4], sobelHeight := 2} (by simp), ?_, ?_⟩
  · exact (h.2.2.2 {phases := [5], sobelHeight := 2} (by simp)).2.1 0 (by simp) (by simp)
  · exact (h.2.2.2 {phases := [5], sobelHeight := 2} (by simp)).2.2 1 (by simp) (by simp)

/-- For nonnegative dividends, C truncating division agrees with natural
division. -/
theorem tdiv_toNat (n : ℤ) (hn : 0 ≤ n) (k : ℕ) :
    Int.tdiv n (k : ℤ) = ((n.toNat / k : ℕ) : ℤ) := by
  lift n to ℕ using hn
  rfl

/-- For nonnegative dividends, C truncating remainder agrees with the natural
remainder. -/
theorem tmod_toNat (n : ℤ) (hn : 0 ≤ n) (k : ℕ) :
    (Int.tmod n (k : ℤ)).toNat = n.toNat % k := by
  lift n to ℕ using hn
  rfl

theorem cTrunc_nonneg {q : ℚ} (hq : 0 ≤ q) : 0 ≤ cTrunc q := by
  rw [cTrunc, if_pos hq]
  exact Int.floor_nonneg.mpr hq

namespace OfApp

/-- Embedding of `ofApp::calculateFrequencyFromY` — the duplicate of the
`ColumnSonifier` mapping invoked by the live audio callback. In the C++
source `octave = noteIndex / scale.size()` divides after conversion to
`size_t`, so it is modelled with natural division of `noteIndex.toNat` (the
`scale[...]` read is only well defined for nonnegative `noteIndex`, which
holds for every in-range row). -/
def calculateFrequencyFromY (m : MathFns) (a : OfApp) (y totalHeight : ℕ) : ℚ :=
  let scale : List ℤ := [0, 3, 5, 7, 10, 12]
  let normalizedY : ℚ := if 1 < totalHeight then 1 - (y : ℚ) / ((totalHeight : ℚ) - 1) else 1
  let totalNotes : ℤ := (scale.length : ℤ) * 4
  let noteIndex : ℤ := cTrunc (normalizedY * ((totalNotes : ℤ) - 1))
  let octave : ℕ := noteIndex.toNat / scale.length
  let scaleNote : ℤ := scale.getD (noteIndex.toNat % scale.length) 0
  let midiNote : ℚ := ((48 + (octave : ℤ) * 12 + scaleNote : ℤ) : ℚ)
  let baseFreq : ℚ := 440 * m.pow2f ((midiNote - 69) / 12)
  ofMapClamped baseFreq (1308128 / 10000) (20930045 / 10000) a.minFreq a.maxFreq

end OfApp

/-- C10: the row-to-frequency mapping implemented in `ofApp` (the one the live
audio callback runs) and the one in `ColumnSonifier` are extensionally equal:
for every in-range row index `y < totalHeight` and equal `minFreq`/`maxFreq`
parameter values they return the same frequency. -/
theorem C10_frequency_mapping_equiv (m : MathFns) (s : ColumnSonifier) (a : OfApp)
    (y totalHeight : ℕ) (hy : y < totalHeight)
    (hmin : s.minFreq = a.minFreq) (hmax : s.maxFreq = a.maxFreq) :
    ColumnSonifier.calculateFrequencyFromY m s y totalHeight =
      OfApp.calculateFrequencyFromY m a y totalHeight := by
  have hnorm : (0:ℚ) ≤ (if 1 < totalHeight then 1 - (y : ℚ) / ((totalHeight : ℚ) - 1) else 1) := by
    split_ifs with hh
    · have hden : (0:ℚ) < (totalHeight : ℚ) - 1 := by
        have : (2:ℚ) ≤ (totalHeight : ℚ) := by exact_mod_cast hh
        linarith
      have hnum : (y : ℚ) ≤ (totalHeight : ℚ) - 1 := by
        have : (y : ℚ) + 1 ≤ (totalHeight : ℚ) := by exact_mod_cast hy
        linarith
      have := (div_le_one hden).mpr hnum
      linarith
    · norm_num
  simp only [ColumnSonifier.calculateFrequencyFromY, OfApp.calculateFrequencyFromY]
  rw [hmin, hmax]
  have h0 : (0:ℚ) ≤ (if 1 < totalHeight then 1 - (y : ℚ) / ((totalHeight : ℚ) - 1) else 1) *
      ((((([0, 3, 5, 7, 10, 12] : List ℤ).length : ℤ) * 4 : ℤ) : ℚ) - 1) := by
    refine mul_nonneg hnorm ?_
    norm_num
  have hN := cTrunc_nonneg h0
  rw [tdiv_toNat _ hN, tmod_toNat _ hN]

/-- Witness for C10 at row 0 of a 24-row map with the default parameter
values. -/
theorem C10_frequency_mapping_equiv_witness :
    ColumnSonifier.calculateFrequencyFromY mathFnsUnit {} 0 24 =
      OfApp.calculateFrequencyFromY mathFnsUnit {} 0 24 :=
  C10_frequency_mapping_equiv mathFnsUnit {} {} 0 24 (by decide) rfl rfl

/-! ### ImageProcessor (`src/ImageProcessor.cpp`) -/

/-- An `ofImage`: dimensions, grayscale byte contents, and allocation flag. -/
structure OfImage where
  width : ℕ := 0
  height : ℕ := 0
  pix : List ℕ := []
  allocated : Bool := false

/-- State of `class ImageProcessor` (defaults from `ImageProcessor.h`). -/
structure ImageProcessor where
  original : OfImage := {}
  graySmall : OfImage := {}
  sobelImg : OfImage := {}
  scaleFactor : ℚ := 1/4
  dirty : Bool := true
  lastContrast : ℚ := 1
  lastExposure : ℚ := 0
  lastSobelStrength : ℚ := 1

/-- Exact model of `ofClamp` on C `int` values. -/
def intClamp (v lo hi : ℤ) : ℤ := if v < lo then lo else if v > hi then hi else v

namespace ImageProcessor

/-- Embedding of `ImageProcessor::allocateProcessedImages`:
`w = max(1, (int)(original.getWidth() * scaleFactor))` and likewise for the
height; both processed images get these dimensions. Freshly allocated pixel
contents are modelled as zeros (they are overwritten by `process` before any
use). -/
def allocateProcessedImages (p : ImageProcessor) : ImageProcessor :=
  let w := (max 1 (cTrunc ((p.original.width : ℚ) * p.scaleFactor))).toNat
  let h := (max 1 (cTrunc ((p.original.height : ℚ) * p.scaleFactor))).toNat
  {p with
    graySmall := {width := w, height := h, pix := List.replicate (w * h) 0, allocated := true},
    sobelImg := {width := w, height := h, pix := List.replicate (w * h) 0, allocated := true}}

/-- Embedding of `ImageProcessor::setSourceRGB`. -/
def setSourceRGB (p : ImageProcessor) (rgb : OfImage) : ImageProcessor :=
  if rgb.allocated = false then p
  else
    let p1 := {p with original := rgb}
    let p2 := allocateProcessedImages p1
    {p2 with dirty := true}

/-- Embedding of `ImageProcessor::setParams`: cache and mark dirty only when a
value changed. -/
def setParams (p : ImageProcessor) (contrast exposure sobelStrength : ℚ) : ImageProcessor :=
  if contrast ≠ p.lastContrast ∨ exposure ≠ p.lastExposure ∨
      sobelStrength ≠ p.lastSobelStrength then
    {p with
      lastContrast := contrast, lastExposure := exposure,
      lastSobelStrength := sobelStrength, dirty := true}
  else p

/-- The per-pixel transform of `ImageProcessor::applyImageAdjustments`:
normalize, add exposure, scale contrast around the midpoint, clamp, and store
back into an 8-bit channel (float to `unsigned char` truncates). -/
def adjustPixel (contrast exposure : ℚ) (pv : ℕ) : ℕ :=
  let v := (pv : ℚ) / 255
  let v1 := v + exposure
  let v2 := (v1 - 1/2) * contrast + 1/2
  (cTrunc (stdClamp (v2 * 255) 0 255)).toNat

/-- Embedding of `ImageProcessor::applyImageAdjustments` (in-place map over the
grayscale buffer). -/
def applyImageAdjustments (p : ImageProcessor) (contrast exposure : ℚ) : ImageProcessor :=
  let newPix := p.graySmall.pix.map (adjustPixel contrast exposure)
  {p with graySmall := {p.graySmall with pix := newPix}}

/-- Embedding of `ImageProcessor::calculateSobelMagnitude` at pixel `(x, y)` of
a `w`-wide grayscale buffer (meaningful for interior pixels, as in the C++). -/
def calculateSobelMagnitude (src : List ℕ) (x y w : ℕ) (sobelStrength : ℚ) : ℤ :=
  let i := y * w + x
  let gx : ℤ :=
    -(src.getD (i - w - 1) 0 : ℤ) + (src.getD (i - w + 1) 0 : ℤ)
    - 2 * (src.getD (i - 1) 0 : ℤ) + 2 * (src.getD (i + 1) 0 : ℤ)
    - (src.getD (i + w - 1) 0 : ℤ) + (src.getD (i + w + 1) 0 : ℤ)
  let gy : ℤ :=
    -(src.getD (i - w - 1) 0 : ℤ) - 2 * (src.getD (i - w) 0 : ℤ) - (src.getD (i - w + 1) 0 : ℤ)
    + (src.getD (i + w - 1) 0 : ℤ) + 2 * (src.getD (i + w) 0 : ℤ) + (src.getD (i + w + 1) 0 : ℤ)
  cTrunc (((|gx| + |gy| : ℤ) : ℚ) * sobelStrength)

/-- Embedding of `ImageProcessor::applySobel`: zero the destination, then write
the clamped magnitude at every interior pixel. -/
def applySobel (src : List ℕ) (w h : ℕ) (sobelStrength : ℚ) : List ℕ :=
  (List.range (w * h)).map (fun i =>
    let x := i % w
    let y := i / w
    if 1 ≤ x ∧ x + 1 < w ∧ 1 ≤ y ∧ y + 1 < h then
      (intClamp (calculateSobelMagnitude src x y w sobelStrength) 0 255).toNat
    else 0)

/-- Embedding of `ImageProcessor::applySobelFilter`. -/
def applySobelFilter (p : ImageProcessor) (sobelStrength : ℚ) : ImageProcessor :=
  let newPix := applySobel p.graySmall.pix p.graySmall.width p.graySmall.height sobelStrength
  {p with sobelImg := {p.sobelImg with pix := newPix}}

/-- Embedding of `ImageProcessor::resizeToGrayscale`. The openFrameworks
resampler (`ofPixels::resizeTo`) plus the RGB-to-grayscale conversion are
library code outside this repository, so they are threaded through as the
function parameter `resizeFn` (source pixels, source dims, destination dims);
the properties below hold for every deterministic resampler. -/
def resizeToGrayscale (resizeFn : List ℕ → ℕ → ℕ → ℕ → ℕ → List ℕ)
    (p : ImageProcessor) : ImageProcessor :=
  let newPix := resizeFn p.original.pix p.original.width p.original.height
    p.graySmall.width p.graySmall.height
  {p with graySmall := {p.graySmall with pix := newPix}}

/-- Embedding of `ImageProcessor::process`: resize, adjust, Sobel — using the
cached parameters. -/
def process (resizeFn : List ℕ → ℕ → ℕ → ℕ → ℕ → List ℕ)
    (p : ImageProcessor) : ImageProcessor :=
  let p1 := resizeToGrayscale resizeFn p
  let p2 := applyImageAdjustments p1 p1.lastContrast p1.lastExposure
  applySobelFilter p2 p2.lastSobelStrength

/-- Embedding of `ImageProcessor::update`: recompute only when dirty and a
source is available, then clear the dirty flag. -/
def update (resizeFn : List ℕ → ℕ → ℕ → ℕ → ℕ → List ℕ)
    (p : ImageProcessor) : ImageProcessor :=
  if p.dirty = false ∨ p.original.allocated = false then p
  else {process resizeFn p with dirty := false}

end ImageProcessor

theorem cTrunc_eq_floor {q : ℚ} (hq : 0 ≤ q) : cTrunc q = ⌊q⌋ := if_pos hq

/-- Source image and processor for the C5 counterexample: a 10 x 10 source at
`scaleFactor = 1/4`, so `sourceW * scaleFactor = 2.5`. -/
def cxProcessor : ImageProcessor :=
  { original := {width := 10, height := 10, pix := List.replicate 300 0, allocated := true},
    scaleFactor := 1/4 }

/-- C5 counterexample: for a 10-wide source at scale `1/4` the claim demands
`round(2.5) = 3`, but the C cast truncates: the allocated width is 2. -/
theorem C5_counterexample :
    (ImageProcessor.allocateProcessedImages cxProcessor).graySmall.width = 2 ∧
    cRound ((10 : ℚ) * (1/4)) = 3 ∧ (2 : ℕ) ≠ 3 := by
  refine ⟨?_, ?_, by decide⟩
  · norm_num [ImageProcessor.allocateProcessedImages, cxProcessor, cTrunc]
    decide
  · norm_num [cRound]

/-- C5 amended: for every allocated source and nonnegative scale factor, both
processed images are allocated with
`width = max 1 (floor(sourceW * scaleFactor))` (the C cast truncates — floor on
nonnegative values — rather than rounding) and similarly for the height; both
dimensions are at least 1. -/
theorem C5_processed_dims (p : ImageProcessor) (hs : 0 ≤ p.scaleFactor) :
    (ImageProcessor.allocateProcessedImages p).graySmall.width =
      max 1 (Int.toNat ⌊(p.original.width : ℚ) * p.scaleFactor⌋) ∧
    (ImageProcessor.allocateProcessedImages p).graySmall.height =
      max 1 (Int.toNat ⌊(p.original.height : ℚ) * p.scaleFactor⌋) ∧
    (ImageProcessor.allocateProcessedImages p).sobelImg.width =
      (ImageProcessor.allocateProcessedImages p).graySmall.width ∧
    (ImageProcessor.allocateProcessedImages p).sobelImg.height =
      (ImageProcessor.allocateProcessedImages p).graySmall.height ∧
    1 ≤ (ImageProcessor.allocateProcessedImages p).graySmall.width ∧
    1 ≤ (ImageProcessor.allocateProcessedImages p).graySmall.height := by
  have hw : cTrunc ((p.original.width : ℚ) * p.scaleFactor) =
      ⌊(p.original.width : ℚ) * p.scaleFactor⌋ :=
    cTrunc_eq_floor (mul_nonneg (by positivity) hs)
  have hh : cTrunc ((p.original.height : ℚ) * p.scaleFactor) =
      ⌊(p.original.height : ℚ) * p.scaleFactor⌋ :=
    cTrunc_eq_floor (mul_nonneg (by positivity) hs)
  have hmax : ∀ z : ℤ, (max 1 z).toNat = max 1 z.toNat := by
    intro z; omega
  simp only [ImageProcessor.allocateProcessedImages, hw, hh]
  exact ⟨hmax _, hmax _, trivial, trivial, by omega, by omega⟩

/-- Witness for C5 at the 10 x 10, scale 1/4 processor: dimensions 2 x 2. -/
theorem C5_processed_dims_witness :
    (ImageProcessor.allocateProcessedImages cxProcessor).graySmall.width =
      max 1 (Int.toNat ⌊(cxProcessor.original.width : ℚ) * cxProcessor.scaleFactor⌋) ∧
    (ImageProcessor.allocateProcessedImages cxProcessor).graySmall.height =
      max 1 (Int.toNat ⌊(cxProcessor.original.height : ℚ) * cxProcessor.scaleFactor⌋) ∧
    (ImageProcessor.allocateProcessedImages cxProcessor).sobelImg.width =
      (ImageProcessor.allocateProcessedImages cxProcessor).graySmall.width ∧
    (ImageProcessor.allocateProcessedImages cxProcessor).sobelImg.height =
      (ImageProcessor.allocateProcessedImages cxProcessor).graySmall.height ∧
    1 ≤ (ImageProcessor.allocateProcessedImages cxProcessor).graySmall.width ∧
    1 ≤ (ImageProcessor.allocateProcessedImages cxProcessor).graySmall.height :=
  C5_processed_dims cxProcessor (by norm_num [cxProcessor])

/-- C9: `update` is idempotent under unchanged inputs: after an `update` on an
allocated source, re-submitting the same three parameter values via `setParams`
is a no-op (the dirty flag stays false) and a second `update` changes nothing,
so the processed Sobel map is identical and `process` is not run again; and the
dirty flag is set by `setParams` exactly when one of contrast / exposure /
sobelStrength changes value (or it was already set), and by `setSourceRGB`
exactly when an allocated source is installed. This holds for every
deterministic resampler `resizeFn`. -/
theorem C9_dirty_gating (resizeFn : List ℕ → ℕ → ℕ → ℕ → ℕ → List ℕ)
    (p0 : ImageProcessor) (ha : p0.original.allocated = true) :
    (ImageProcessor.setParams (ImageProcessor.update resizeFn p0)
        (ImageProcessor.update resizeFn p0).lastContrast
        (ImageProcessor.update resizeFn p0).lastExposure
        (ImageProcessor.update resizeFn p0).lastSobelStrength =
      ImageProcessor.update resizeFn p0) ∧
    ((ImageProcessor.update resizeFn p0).dirty = false) ∧
    (ImageProcessor.update resizeFn
        (ImageProcessor.setParams (ImageProcessor.update resizeFn p0)
          (ImageProcessor.update resizeFn p0).lastContrast
          (ImageProcessor.update resizeFn p0).lastExposure
          (ImageProcessor.update resizeFn p0).lastSobelStrength) =
      ImageProcessor.update resizeFn p0) ∧
    (∀ (q : ImageProcessor) (c e st : ℚ),
      ((ImageProcessor.setParams q c e st).dirty = true ↔
        (q.dirty = true ∨ c ≠ q.lastContrast ∨ e ≠ q.lastExposure ∨
          st ≠ q.lastSobelStrength))) ∧
    (∀ (q : ImageProcessor) (rgb : OfImage), rgb.allocated = true →
      (ImageProcessor.setSourceRGB q rgb).dirty = true) ∧
    (∀ (q : ImageProcessor) (rgb : OfImage), rgb.allocated = false →
      ImageProcessor.setSourceRGB q rgb = q) := by
  have hnoop : ImageProcessor.setParams (ImageProcessor.update resizeFn p0)
      (ImageProcessor.update resizeFn p0).lastContrast
      (ImageProcessor.update resizeFn p0).lastExposure
      (ImageProcessor.update resizeFn p0).lastSobelStrength =
      ImageProcessor.update resizeFn p0 := by
    rw [ImageProcessor.setParams, if_neg (by simp)]
  have hdirty : (ImageProcessor.update resizeFn p0).dirty = false := by
    rw [ImageProcessor.update]
    by_cases hd : p0.dirty = false
    · rw [if_pos (Or.inl hd)]
      exact hd
    · rw [if_neg (by simp [hd, ha])]
  refine ⟨hnoop, hdirty, ?_, ?_, ?_, ?_⟩
  · rw [hnoop, ImageProcessor.update, if_pos (Or.inl hdirty)]
  · intro q c e st
    rw [ImageProcessor.setParams]
    by_cases hc : c ≠ q.lastContrast ∨ e ≠ q.lastExposure ∨ st ≠ q.lastSobelStrength
    · rw [if_pos hc]
      simpa using Or.inr hc
    · rw [if_neg hc]
      push_neg at hc
      simp [hc]
  · intro q rgb hrgb
    rw [ImageProcessor.setSourceRGB, if_neg (by simp [hrgb])]
  · intro q rgb hrgb
    rw [ImageProcessor.setSourceRGB, if_pos hrgb]

/-- Trivial resampler used by the C9 witness (any function works). -/
def resizeFnUnit : List ℕ → ℕ → ℕ → ℕ → ℕ → List ℕ :=
  fun _ _ _ dw dh => List.replicate (dw * dh) 0

/-- Processor with a 1 x 1 allocated source for the C9 witness. -/
def procWit : ImageProcessor :=
  { original := {width := 1, height := 1, pix := [100], allocated := true} }

/-- Witness for C9 at a concrete processor: its dirty flag is cleared by the
first update and the second update is the identity. -/
theorem C9_dirty_gating_witness :
    ((ImageProcessor.update resizeFnUnit procWit).dirty = false) ∧
    (ImageProcessor.update resizeFnUnit
        (ImageProcessor.setParams (ImageProcessor.update resizeFnUnit procWit)
          (ImageProcessor.update resizeFnUnit procWit).lastContrast
          (ImageProcessor.update resizeFnUnit procWit).lastExposure
          (ImageProcessor.update resizeFnUnit procWit).lastSobelStrength) =
      ImageProcessor.update resizeFnUnit procWit) := by
  have h := C9_dirty_gating resizeFnUnit procWit rfl
  exact ⟨h.2.1, h.2.2.1⟩
